import Mathlib

/-!
Verification of the color-interpolation core of the `graphs` repository
(`src/graphs/utils.py`): the functions `getContinuousColor` and `rgbToHex`,
together with the one external helper they delegate to,
`plotly.colors.find_intermediate_color`.

Modelling conventions:
* Python floats are modelled as rationals (`ℚ`); every concrete input used in
  a theorem below is a dyadic rational, on which Python float arithmetic is
  exact, so the model and the program agree on those inputs.
* RGB colors are integer triples (`ℤ × ℤ × ℤ`).  The source stores colors
  either as tuples or as `rgb(r, g, b)` strings and normalises the latter with
  `eval(str(color).replace('rgb', ''))`; the colorscale model carries the
  normalised triple directly, and the string path of `rgbToHex` models the
  `eval` as an explicit integer-tuple-literal parser.
* A Python exception escaping the function is modelled as `Except.error` with
  a constructor naming the exception class that Python would raise.
-/

/-- An RGB color as produced by evaluating a color literal: a triple of
(unbounded) integers. -/
abbrev Color : Type := ℤ × ℤ × ℤ

/-- The exceptions the modelled code can raise.
`valueError` is the explicit `raise ValueError(...)`;
`unboundLocal` models Python's `UnboundLocalError` when the scan loop never
assigned `low_color` / `high_color`;
`indexError` models indexing a tuple shorter than 3 in the f-string of
`rgbToHex`; `evalError` collects the `SyntaxError`/`NameError`/`TypeError`
cases where `eval` of the color string does not yield a subscriptable tuple. -/
inductive PyError : Type where
  | valueError (msg : String)
  | unboundLocal (name : String)
  | indexError
  | evalError
deriving DecidableEq, Repr

/-- Python `int()` applied to a (real-valued) float: truncation toward zero. -/
def pyInt (q : ℚ) : ℤ :=
  if q < 0 then -⌊-q⌋ else ⌊q⌋

/-- Model of `plotly.colors.find_intermediate_color(lowcolor, highcolor,
intermed)` with the default `colortype="tuple"`: independent linear
interpolation per channel, `low + intermed * (high - low)`, with no rounding
and no clamping. -/
def find_intermediate_color (lowcolor highcolor : ℚ × ℚ × ℚ) (intermed : ℚ) :
    ℚ × ℚ × ℚ :=
  (lowcolor.1 + intermed * (highcolor.1 - lowcolor.1),
   lowcolor.2.1 + intermed * (highcolor.2.1 - lowcolor.2.1),
   lowcolor.2.2 + intermed * (highcolor.2.2 - lowcolor.2.2))

/-- Cast an integer color triple to the rational triple plotly computes on. -/
def colorToRat (c : Color) : ℚ × ℚ × ℚ :=
  ((c.1 : ℚ), (c.2.1 : ℚ), (c.2.2 : ℚ))

/-- The scan loop of `getContinuousColor` (`for cutoff, color in colorscale:
if intermed > cutoff: low_... = ... else: high_... = ...; break`).  The first
component is the last stop seen with `cutoff < intermed` (the value of the
`low_` locals, `none` if never assigned), the second is the stop at which the
loop broke (the `high_` locals, `none` if the loop ran to completion). -/
def scanStops (intermed : ℚ) :
    List (ℚ × Color) → Option (ℚ × Color) →
      Option (ℚ × Color) × Option (ℚ × Color)
  | [], low => (low, none)
  | s :: rest, low =>
      if s.1 < intermed then scanStops intermed rest (some s) else (low, some s)

/-- Lines 44–50 of `utils.py`: `find_intermediate_color` on the bracketing
stops at the normalised position, followed by `int()` on each channel. -/
def lerpStops (low high : ℚ × Color) (intermed : ℚ) : Color :=
  let t := find_intermediate_color (colorToRat low.2) (colorToRat high.2)
    ((intermed - low.1) / (high.1 - low.1))
  (pyInt t.1, pyInt t.2.1, pyInt t.2.2)

/-- Function `getContinuousColor` from `src/graphs/utils.py`, up to (but not
including) the final conversion of the resulting triple to a hex string:
* empty colorscale: `raise ValueError("Colorscale must have at least one
  color.")`;
* `intermed <= 0 or len(colorscale) == 1`: first stop's color;
* `intermed >= 1`: last stop's color;
* otherwise scan for the bracketing stops and interpolate; a reference to a
  never-assigned `low_color`/`high_color` local raises `UnboundLocalError`
  (Python evaluates the keyword arguments left to right, so `low_color` is
  reported first). -/
def getContinuousColorRGB (colorscale : List (ℚ × Color)) (intermed : ℚ) :
    Except PyError Color :=
  match colorscale with
  | [] => .error (.valueError "Colorscale must have at least one color.")
  | first :: rest =>
      if intermed ≤ 0 ∨ rest = [] then .ok first.2
      else if 1 ≤ intermed then
        .ok ((first :: rest).getLast (List.cons_ne_nil first rest)).2
      else
        match scanStops intermed (first :: rest) none with
        | (some low, some high) => .ok (lerpStops low high intermed)
        | (none, _) => .error (.unboundLocal "low_color")
        | (some _, none) => .error (.unboundLocal "high_color")

instance {ε α : Type} [DecidableEq ε] [DecidableEq α] :
    DecidableEq (Except ε α) := fun x y =>
  match x, y with
  | .ok a, .ok b =>
      if h : a = b then isTrue (by rw [h])
      else isFalse (fun hc => h (Except.ok.inj hc))
  | .error a, .error b =>
      if h : a = b then isTrue (by rw [h])
      else isFalse (fun hc => h (Except.error.inj hc))
  | .ok _, .error _ => isFalse (fun hc => Except.noConfusion hc)
  | .error _, .ok _ => isFalse (fun hc => Except.noConfusion hc)

/-- The lowercase hexadecimal digit for `n < 16`, as Python's `x` format
produces (`0`–`9`, `a`–`f`). -/
def hexDigitChar (n : Nat) : Char :=
  if n < 10 then Char.ofNat (48 + n) else Char.ofNat (87 + n)

/-- Digits of `n` in base 16, most significant first, accumulated onto `acc`.
The fuel argument only forces structural recursion; `natToHex` always supplies
enough. -/
def natToHexAux : Nat → Nat → List Char → List Char
  | 0, _, acc => acc
  | fuel + 1, n, acc =>
      if n < 16 then hexDigitChar n :: acc
      else natToHexAux fuel (n / 16) (hexDigitChar (n % 16) :: acc)

/-- Python `format(n, 'x')` for a natural number: lowercase hex digits with
no leading zeros (`"0"` for 0). -/
def natToHex (n : Nat) : List Char := natToHexAux (n + 1) n []

/-- Left-pad with `'0'` to width 2 (the `02` part of the format spec). -/
def padLeft2 (l : List Char) : List Char :=
  List.replicate (2 - l.length) '0' ++ l

/-- Python `format(n, '02x')` for an integer: lowercase hex, zero-padded to a
total width of 2.  A negative number renders as `'-'` followed by the hex
digits of its absolute value (the sign counts toward the width, so no padding
ever applies). -/
def pyFormat02x (n : ℤ) : List Char :=
  if n < 0 then '-' :: natToHex n.natAbs else padLeft2 (natToHex n.toNat)

/-- The f-string of `rgbToHex`:
`f'#{rgb[0]:02x}{rgb[1]:02x}{rgb[2]:02x}'`. -/
def rgbToHexCore (c : Color) : String :=
  ⟨'#' :: (pyFormat02x c.1 ++ pyFormat02x c.2.1 ++ pyFormat02x c.2.2)⟩

/-- Python `str.replace('rgb', '')`: delete every (left-to-right,
non-overlapping) occurrence of the substring `rgb`. -/
def stripRgb : List Char → List Char
  | [] => []
  | 'r' :: 'g' :: 'b' :: rest => stripRgb rest
  | c :: rest => c :: stripRgb rest

def skipSpaces (l : List Char) : List Char := l.dropWhile (· = ' ')

def digitVal (c : Char) : Nat := c.toNat - 48

/-- Consume a maximal nonempty run of decimal digits. -/
def parseNatDigits (l : List Char) : Option (Nat × List Char) :=
  match l.span (fun c => c.isDigit) with
  | ([], _) => none
  | (ds, rest) => some (ds.foldl (fun a c => 10 * a + digitVal c) 0, rest)

/-- Consume an optionally negated integer literal, after optional spaces. -/
def parseIntTok (l : List Char) : Option (ℤ × List Char) :=
  match skipSpaces l with
  | '-' :: rest =>
      (parseNatDigits (skipSpaces rest)).map (fun p => (-(p.1 : ℤ), p.2))
  | rest => (parseNatDigits rest).map (fun p => ((p.1 : ℤ), p.2))

/-- Consume a comma-separated sequence of integer literals; reports whether a
trailing comma was present and returns the (space-skipped) remainder.  Fuel
forces structural recursion; callers supply `length + 1`, which suffices since
every round consumes at least one character. -/
def parseItemsAux : Nat → List Char → Option (List ℤ × Bool × List Char)
  | 0, _ => none
  | fuel + 1, l =>
      match parseIntTok l with
      | none => none
      | some (n, r) =>
          match skipSpaces r with
          | ',' :: r2 =>
              let r3 := skipSpaces r2
              if r3 = [] ∨ r3.head? = some ')' then some ([n], true, r3)
              else
                match parseItemsAux fuel r3 with
                | none => none
                | some (ns, tc, rr) => some (n :: ns, tc, rr)
          | r1 => some ([n], false, r1)

/-- Model of `eval` as applied by `rgbToHex`: the evaluated string is expected
to denote a tuple of integers, i.e. an optionally parenthesized
comma-separated sequence of integer literals that is an actual tuple (at
least two elements, or a trailing comma).  Any other string — in Python a
`SyntaxError`/`NameError` from `eval`, or a `TypeError` when the result is
not subscriptable — yields `none`. -/
def pyEvalIntTuple (l : List Char) : Option (List ℤ) :=
  match skipSpaces l with
  | '(' :: r =>
      match parseItemsAux (r.length + 1) r with
      | some (ns, tc, rest) =>
          match rest with
          | ')' :: rest2 =>
              if skipSpaces rest2 = [] ∧ (2 ≤ ns.length ∨ tc) then some ns
              else none
          | _ => none
      | none => none
  | l1 =>
      match parseItemsAux (l1.length + 1) l1 with
      | some (ns, tc, rest) =>
          if rest = [] ∧ (2 ≤ ns.length ∨ tc) then some ns else none
      | none => none

/-- Function `rgbToHex` from `src/graphs/utils.py`.  A string argument is first
normalised by `rgb = eval(rgb.replace('rgb', ''))`; then the triple is
formatted as `f'#{rgb[0]:02x}{rgb[1]:02x}{rgb[2]:02x}'`.  A tuple with fewer
than three components raises `IndexError` at the subscript; a string `eval`
cannot turn into a subscriptable tuple raises (`evalError` here). -/
def rgbToHex : String ⊕ Color → Except PyError String
  | .inl s =>
      match pyEvalIntTuple (stripRgb s.data) with
      | none => .error .evalError
      | some ns =>
          match ns with
          | r :: g :: b :: _ => .ok (rgbToHexCore (r, g, b))
          | _ => .error .indexError
  | .inr c => .ok (rgbToHexCore c)

/-- The full `getContinuousColor`: the interpolated triple rendered as a hex
string.  In the source every `return` feeds its color through `rgbToHex`;
on the triples of this model that is exactly `rgbToHexCore`. -/
def getContinuousColor (colorscale : List (ℚ × Color)) (intermed : ℚ) :
    Except PyError String :=
  (getContinuousColorRGB colorscale intermed).map rgbToHexCore

/-- A 7-character `#rrggbb` string: `'#'` followed by exactly six lowercase
hexadecimal digits. -/
def isLowerHexDigit (c : Char) : Bool :=
  (('0' ≤ c) && (c ≤ '9')) || (('a' ≤ c) && (c ≤ 'f'))

def isHexColorStr (s : String) : Bool :=
  match s.data with
  | '#' :: rest => rest.length == 6 && rest.all isLowerHexDigit
  | _ => false

/-- Modelled from the spec: the per-channel value the spec's general case
prescribes — `round(low.color[ch] + u * (high.color[ch] - low.color[ch]))`,
clamped to [0, 255] — for comparison against what the code computes. -/
def specLerpChannel (low high : ℤ) (u : ℚ) : ℤ :=
  min 255 (max 0 (round ((low : ℚ) + u * ((high : ℚ) - (low : ℚ)))))

/-- The two-stop scale from black at cutoff 0 to white at cutoff 1. -/
def bwScale : List (ℚ × Color) := [(0, (0, 0, 0)), (1, (255, 255, 255))]

/-- The per-channel value the code produces on `bwScale` (all three channels
coincide). -/
def bwChannel (t : ℚ) : ℤ :=
  if t ≤ 0 then 0 else if 1 ≤ t then 255 else ⌊255 * t⌋

/-! ### Helper lemmas about the interpolation core -/

theorem pyInt_intCast (n : ℤ) : pyInt (n : ℚ) = n := by
  unfold pyInt
  split
  · rw [show (-(n : ℚ)) = ((-n : ℤ) : ℚ) by push_cast; ring, Int.floor_intCast]
    ring
  · rw [Int.floor_intCast]

theorem pyInt_eq_floor (q : ℚ) (h : 0 ≤ q) : pyInt q = ⌊q⌋ := by
  unfold pyInt
  rw [if_neg (not_lt.mpr h)]

/-- The scan loop finds exactly the bracketing pair: if every stop up to
index `i` has cutoff below `intermed` and stop `i + 1` has cutoff at least
`intermed`, the loop ends with `low = cs[i]` and `high = cs[i + 1]`,
whatever the initial value of the `low` locals. -/
theorem scanStops_bracket (t : ℚ) (cs : List (ℚ × Color)) :
    ∀ (low0 : Option (ℚ × Color)) (i : ℕ) (hi : i + 1 < cs.length),
      (∀ j (hj : j < cs.length), j ≤ i → (cs.get ⟨j, hj⟩).1 < t) →
      t ≤ (cs.get ⟨i + 1, hi⟩).1 →
      scanStops t cs low0 =
        (some (cs.get ⟨i, Nat.lt_of_succ_lt hi⟩), some (cs.get ⟨i + 1, hi⟩)) := by
  induction cs with
  | nil => intro low0 i hi _ _; simp at hi
  | cons s rest ih =>
      intro low0 i hi hbefore hhigh
      have hs : s.1 < t := hbefore 0 (by simp) (Nat.zero_le _)
      cases i with
      | zero =>
          cases rest with
          | nil => simp at hi
          | cons s1 rest' =>
              have h1 : t ≤ s1.1 := hhigh
              simp [scanStops, hs, not_lt.mpr h1]
      | succ k =>
          have hk : k + 1 < rest.length := by
            simpa [Nat.succ_lt_succ_iff] using hi
          have hb : ∀ j (hj : j < rest.length), j ≤ k →
              (rest.get ⟨j, hj⟩).1 < t := by
            intro j hj hjk
            exact hbefore (j + 1) (by simpa using Nat.succ_lt_succ hj)
              (Nat.succ_le_succ hjk)
          have := ih (some s) k hk hb hhigh
          simpa [scanStops, hs] using this

/-- In the general case (`0 < intermed < 1`, at least two stops, cutoffs
nondecreasing, `cs[i].cutoff < intermed ≤ cs[i+1].cutoff`) the code
interpolates between the bracketing stops `cs[i]` and `cs[i + 1]`. -/
theorem interp_bracket (cs : List (ℚ × Color)) (t : ℚ) (i : ℕ)
    (hsort : List.Pairwise (fun a b : ℚ × Color => a.1 ≤ b.1) cs)
    (hi : i + 1 < cs.length) (h0 : 0 < t) (h1 : t < 1)
    (hlow : (cs.get ⟨i, Nat.lt_of_succ_lt hi⟩).1 < t)
    (hhigh : t ≤ (cs.get ⟨i + 1, hi⟩).1) :
    getContinuousColorRGB cs t =
      .ok (lerpStops (cs.get ⟨i, Nat.lt_of_succ_lt hi⟩) (cs.get ⟨i + 1, hi⟩) t) := by
  match cs, hi, hsort, hlow, hhigh with
  | first :: rest, hi, hsort, hlow, hhigh =>
    have hrest : rest ≠ [] := by
      cases rest with
      | nil => simp at hi
      | cons a l => simp
    have hbefore : ∀ j (hj : j < (first :: rest).length), j ≤ i →
        ((first :: rest).get ⟨j, hj⟩).1 < t := by
      intro j hj hjle
      rcases Nat.lt_or_ge j i with hlt | hge
      · have hrel := List.pairwise_iff_get.mp hsort ⟨j, hj⟩
          ⟨i, Nat.lt_of_succ_lt hi⟩ hlt
        exact lt_of_le_of_lt hrel hlow
      · have : j = i := Nat.le_antisymm hjle hge
        subst this
        exact hlow
    have hscan := scanStops_bracket t (first :: rest) none i hi hbefore hhigh
    have hcond1 : ¬ (t ≤ 0 ∨ rest = []) := by
      push_neg
      exact ⟨h0, hrest⟩
    have hcond2 : ¬ (1 ≤ t) := not_le.mpr h1
    simp only [getContinuousColorRGB, if_neg hcond1, if_neg hcond2, hscan]

/-- When the query equals the high stop's cutoff the normalised position is
exactly 1, and truncation returns the high stop's color with no error. -/
theorem lerpStops_at_high (low high : ℚ × Color) (hne : low.1 < high.1) :
    lerpStops low high high.1 = high.2 := by
  have hu : (high.1 - low.1) / (high.1 - low.1) = 1 :=
    div_self (sub_ne_zero.mpr (ne_of_gt hne))
  have hch : ∀ a b : ℤ, (a : ℚ) + 1 * ((b : ℚ) - (a : ℚ)) = ((b : ℤ) : ℚ) := by
    intro a b; ring
  simp only [lerpStops, find_intermediate_color, colorToRat, hu, hch,
    pyInt_intCast]

/-- Querying exactly at stop `i`'s cutoff, for `i >= 1` and a cutoff strictly
between 0 and 1, returns exactly that stop's color: the scan finds stop `i`
as the `high` endpoint (strict ascent keeps every earlier cutoff below the
query), the normalised position is exactly 1, and truncation of the exact
integer channel value is the identity.  No assumption on the first or last
cutoff's value is needed. -/
theorem interp_exact_interior (first : ℚ × Color) (rest : List (ℚ × Color))
    (hsort : List.Pairwise (fun a b : ℚ × Color => a.1 < b.1) (first :: rest))
    (i : ℕ) (hi : i < (first :: rest).length) (hipos : 1 ≤ i)
    (h0t : (0 : ℚ) < ((first :: rest).get ⟨i, hi⟩).1)
    (h1t : ((first :: rest).get ⟨i, hi⟩).1 < 1) :
    getContinuousColorRGB (first :: rest) (((first :: rest).get ⟨i, hi⟩).1) =
      .ok ((first :: rest).get ⟨i, hi⟩).2 := by
  have hk : (i - 1) + 1 < (first :: rest).length := by omega
  have hkeq : (i - 1) + 1 = i := by omega
  have hsort' : List.Pairwise (fun a b : ℚ × Color => a.1 ≤ b.1)
      (first :: rest) :=
    hsort.imp (fun h => le_of_lt h)
  have hget_i : ((first :: rest).get ⟨(i - 1) + 1, hk⟩) =
      ((first :: rest).get ⟨i, hi⟩) := by
    congr 1
    exact Fin.ext hkeq
  have hlow : ((first :: rest).get ⟨i - 1, Nat.lt_of_succ_lt hk⟩).1 <
      ((first :: rest).get ⟨i, hi⟩).1 :=
    List.pairwise_iff_get.mp hsort ⟨i - 1, Nat.lt_of_succ_lt hk⟩ ⟨i, hi⟩
      (show i - 1 < i by omega)
  have hbr := interp_bracket (first :: rest)
    (((first :: rest).get ⟨i, hi⟩).1) (i - 1) hsort' hk h0t h1t
    hlow (by rw [hget_i])
  rw [hget_i] at hbr
  rw [hbr, lerpStops_at_high _ _ hlow]

/-! ### Claims C1–C6 -/

/-- C1, amended.  For a colorscale of at least two stops, cutoffs sorted
ascending, and a query `t` with `0 < t < 1` lying strictly above stop `i`'s
cutoff and at most stop `i + 1`'s, the code finds exactly that adjacent pair
`(low, high) = (cs[i], cs[i+1])`, computes
`u = (t - low.cutoff) / (high.cutoff - low.cutoff)` and returns, per channel,
`int(low.color + u * (high.color - low.color))` — `lerpStops`, which
truncates toward zero rather than rounding and applies no clamping.  (The
original claim's `round(...)` and clamping to [0, 255], and its applicability
for any `t` strictly between the smallest and largest cutoffs rather than
only for `0 < t < 1`, are refuted by the counterexamples.) -/
theorem getContinuousColor_general_truncates (cs : List (ℚ × Color)) (t : ℚ)
    (i : ℕ) (hsort : List.Pairwise (fun a b : ℚ × Color => a.1 ≤ b.1) cs)
    (hi : i + 1 < cs.length) (h0 : 0 < t) (h1 : t < 1)
    (hlow : (cs.get ⟨i, Nat.lt_of_succ_lt hi⟩).1 < t)
    (hhigh : t ≤ (cs.get ⟨i + 1, hi⟩).1) :
    getContinuousColorRGB cs t =
      .ok (lerpStops (cs.get ⟨i, Nat.lt_of_succ_lt hi⟩) (cs.get ⟨i + 1, hi⟩) t) :=
  interp_bracket cs t i hsort hi h0 h1 hlow hhigh

theorem getContinuousColor_general_truncates_witness :
    getContinuousColorRGB [((0 : ℚ), ((0 : ℤ), 0, 0)), (1, (255, 255, 255))]
        (7 / 10) =
      .ok (lerpStops ((0 : ℚ), ((0 : ℤ), 0, 0)) (1, (255, 255, 255)) (7 / 10)) := by
  have h := getContinuousColor_general_truncates
    [((0 : ℚ), ((0 : ℤ), 0, 0)), (1, (255, 255, 255))] (7 / 10) 0
    (by norm_num [List.pairwise_cons]) (by norm_num) (by norm_num) (by norm_num)
    (by norm_num) (by norm_num)
  simpa using h

/-- C1, counterexample to the original claim: on the black-to-white scale at
`t = 1/2` each channel of the interpolant is exactly 127.5; the spec formula
`round(...)` (clamped) yields 128, the code yields 127. -/
theorem getContinuousColor_general_truncates_cex :
    getContinuousColorRGB [((0 : ℚ), ((0 : ℤ), 0, 0)), (1, (255, 255, 255))]
        (1 / 2) =
      .ok (127, 127, 127) ∧
    specLerpChannel 0 255 ((1 / 2 - 0) / (1 - 0)) = 128 := by
  constructor
  · norm_num [getContinuousColorRGB, scanStops, lerpStops,
      find_intermediate_color, colorToRat, pyInt]
  · norm_num [specLerpChannel, round_eq]

/-- C2, amended.  The code's lower clamping boundary is the conventional 0,
not the actual smallest cutoff: for every non-empty colorscale and every
`t <= 0` it returns the first stop's color unchanged.  (For
`0 < t <= C[0].cutoff` — possible only when `C[0].cutoff > 0` — it instead
raises `UnboundLocalError`; see the counterexample.) -/
theorem getContinuousColor_clamps_below_at_zero (first : ℚ × Color)
    (rest : List (ℚ × Color)) (t : ℚ) (h : t ≤ 0) :
    getContinuousColorRGB (first :: rest) t = .ok first.2 := by
  simp only [getContinuousColorRGB, if_pos (Or.inl h)]

theorem getContinuousColor_clamps_below_witness :
    getContinuousColorRGB [((0 : ℚ), ((3 : ℤ), 4, 5)), (1, (255, 255, 255))]
        (-2) =
      .ok ((3 : ℤ), 4, 5) :=
  getContinuousColor_clamps_below_at_zero _ _ _ (by norm_num)

/-- C2, counterexample to the original claim: on a scale whose smallest
cutoff is 1/2, the query `t = 1/4 <= C[0].cutoff` does not return
`C[0].color`; the scan loop breaks on its first iteration with the `low`
locals never assigned, so the code raises `UnboundLocalError`. -/
theorem getContinuousColor_clamps_below_cex :
    (1 / 4 : ℚ) ≤ 1 / 2 ∧
    getContinuousColorRGB [((1 / 2 : ℚ), ((0 : ℤ), 0, 0)), (1, (255, 255, 255))]
        (1 / 4) =
      .error (.unboundLocal "low_color") ∧
    getContinuousColorRGB [((1 / 2 : ℚ), ((0 : ℤ), 0, 0)), (1, (255, 255, 255))]
        (1 / 4) ≠
      .ok ((0 : ℤ), 0, 0) := by
  have h2 : getContinuousColorRGB
      [((1 / 2 : ℚ), ((0 : ℤ), 0, 0)), (1, (255, 255, 255))] (1 / 4) =
      .error (.unboundLocal "low_color") := by
    norm_num [getContinuousColorRGB, scanStops]
  exact ⟨by norm_num, h2, by rw [h2]; simp⟩

/-- C3, amended.  The code's upper clamping boundary is the conventional 1,
not the actual largest cutoff: for every non-empty colorscale and every
`t >= 1` it returns the last stop's color unchanged.  Querying exactly at
`t = C[last].cutoff` also returns the last stop's color, provided the
cutoffs are strictly ascending and `C[last].cutoff > 0` (for a largest
cutoff below 1 the loop's last iteration finds the last stop as the `high`
endpoint and `u` is exactly 1).  Only for `C[last].cutoff < t < 1` does the
scan loop run to completion with the `high` locals never assigned, raising
`UnboundLocalError`; see the counterexample. -/
theorem getContinuousColor_clamps_above_at_one (first : ℚ × Color)
    (rest : List (ℚ × Color)) (t : ℚ) :
    (1 ≤ t →
      getContinuousColorRGB (first :: rest) t =
        .ok ((first :: rest).getLast (List.cons_ne_nil first rest)).2) ∧
    (List.Pairwise (fun a b : ℚ × Color => a.1 < b.1) (first :: rest) →
      0 < ((first :: rest).getLast (List.cons_ne_nil first rest)).1 →
      getContinuousColorRGB (first :: rest)
          ((first :: rest).getLast (List.cons_ne_nil first rest)).1 =
        .ok ((first :: rest).getLast (List.cons_ne_nil first rest)).2) := by
  have key : ∀ t' : ℚ, 1 ≤ t' →
      getContinuousColorRGB (first :: rest) t' =
        .ok ((first :: rest).getLast (List.cons_ne_nil first rest)).2 := by
    intro t' h
    cases rest with
    | nil => simp [getContinuousColorRGB]
    | cons a l =>
        have hcond1 : ¬ (t' ≤ 0 ∨ (a :: l) = ([] : List (ℚ × Color))) := by
          push_neg
          exact ⟨by linarith, by simp⟩
        simp only [getContinuousColorRGB, if_neg hcond1, if_pos h]
  refine ⟨key t, ?_⟩
  intro hsort hpos
  by_cases hge : 1 ≤ ((first :: rest).getLast (List.cons_ne_nil first rest)).1
  · exact key _ hge
  · push_neg at hge
    cases rest with
    | nil => simp [getContinuousColorRGB]
    | cons a l =>
        have hlastidx : (first :: a :: l).length - 1 < (first :: a :: l).length := by
          simp
        have hgetlast : (first :: a :: l).getLast (List.cons_ne_nil first (a :: l)) =
            (first :: a :: l).get ⟨(first :: a :: l).length - 1, hlastidx⟩ := by
          rw [List.getLast_eq_getElem, List.get_eq_getElem]
        rw [hgetlast] at hpos hge ⊢
        exact interp_exact_interior first (a :: l) hsort _ hlastidx
          (by simp) hpos hge

theorem getContinuousColor_clamps_above_witness :
    getContinuousColorRGB [((0 : ℚ), ((1 : ℤ), 2, 3)), (1, (9, 9, 9))] 2 =
      .ok ((9 : ℤ), 9, 9) ∧
    getContinuousColorRGB [((0 : ℚ), ((1 : ℤ), 2, 3)), (1 / 2, (7, 8, 9))]
        (1 / 2) =
      .ok ((7 : ℤ), 8, 9) := by
  constructor
  · have h := (getContinuousColor_clamps_above_at_one ((0 : ℚ), ((1 : ℤ), 2, 3))
      [(1, (9, 9, 9))] 2).1 (by norm_num)
    simpa using h
  · have h := (getContinuousColor_clamps_above_at_one ((0 : ℚ), ((1 : ℤ), 2, 3))
      [(1 / 2, (7, 8, 9))] (1 / 2)).2 (by norm_num [List.pairwise_cons])
      (show (0 : ℚ) < 1 / 2 by norm_num)
    simpa [List.getLast] using h

/-- C3, counterexample to the original claim: on a scale whose largest
cutoff is 1/2, the query `t = 3/4 >= C[last].cutoff` does not return
`C[last].color`; the scan loop runs off the end of the list with the `high`
locals never assigned, so the code raises `UnboundLocalError`. -/
theorem getContinuousColor_clamps_above_cex :
    (1 / 2 : ℚ) ≤ 3 / 4 ∧
    getContinuousColorRGB [((0 : ℚ), ((0 : ℤ), 0, 0)), (1 / 2, (255, 255, 255))]
        (3 / 4) =
      .error (.unboundLocal "high_color") ∧
    getContinuousColorRGB [((0 : ℚ), ((0 : ℤ), 0, 0)), (1 / 2, (255, 255, 255))]
        (3 / 4) ≠
      .ok ((255 : ℤ), 255, 255) := by
  have h2 : getContinuousColorRGB
      [((0 : ℚ), ((0 : ℤ), 0, 0)), (1 / 2, (255, 255, 255))] (3 / 4) =
      .error (.unboundLocal "high_color") := by
    norm_num [getContinuousColorRGB, scanStops]
  exact ⟨by norm_num, h2, by rw [h2]; simp⟩

/-- C5 (confirmed).  On an empty colorscale the function fails for every
query with the input-validation error (`raise ValueError(...)`, the spec's
`InvalidInput`), surfacing it to the caller instead of defaulting a color. -/
theorem getContinuousColor_empty_errors (t : ℚ) :
    getContinuousColorRGB [] t =
      .error (.valueError "Colorscale must have at least one color.") := rfl

/-- C6 (confirmed).  On a single-stop colorscale the function returns that
stop's color for every query `t`, negative and greater than 1 included. -/
theorem getContinuousColor_single_stop (s : ℚ × Color) (t : ℚ) :
    getContinuousColorRGB [s] t = .ok s.2 := by
  simp [getContinuousColorRGB]

/-- C4, amended.  For a colorscale with strictly ascending cutoffs whose
first cutoff is 0 and whose cutoffs lie within the data model's [0, 1] range
(it suffices that the last cutoff is at most 1 — no assumption on its exact
value), querying at any stop's own cutoff returns exactly that stop's color,
with zero interpolation error: a stop with cutoff strictly between 0 and 1
(the last stop of a scale ending below 1 included) is found as the `high`
endpoint of the bracketing pair, the normalised position is exactly 1, and
truncation of the exact channel value is the identity.  (The original claim,
for arbitrary sorted scales, is refuted by the counterexample: with a first
cutoff of 1/2 the query at that cutoff raises `UnboundLocalError`.) -/
theorem getContinuousColor_exact_at_cutoffs (first : ℚ × Color)
    (rest : List (ℚ × Color))
    (hsort : List.Pairwise (fun a b : ℚ × Color => a.1 < b.1) (first :: rest))
    (hfirst : first.1 = 0)
    (hlast_le : ((first :: rest).getLast (List.cons_ne_nil first rest)).1 ≤ 1)
    (i : ℕ) (hi : i < (first :: rest).length) :
    getContinuousColorRGB (first :: rest) (((first :: rest).get ⟨i, hi⟩).1) =
      .ok ((first :: rest).get ⟨i, hi⟩).2 := by
  have hmono : ∀ (j k : ℕ) (hj : j < (first :: rest).length)
      (hk : k < (first :: rest).length), j < k →
      ((first :: rest).get ⟨j, hj⟩).1 < ((first :: rest).get ⟨k, hk⟩).1 :=
    fun j k hj hk hjk => List.pairwise_iff_get.mp hsort ⟨j, hj⟩ ⟨k, hk⟩ hjk
  have hlastidx : (first :: rest).length - 1 < (first :: rest).length := by
    simp
  have hgetlast : (first :: rest).getLast (List.cons_ne_nil first rest) =
      (first :: rest).get ⟨(first :: rest).length - 1, hlastidx⟩ := by
    rw [List.getLast_eq_getElem, List.get_eq_getElem]
  rw [hgetlast] at hlast_le
  rcases Nat.eq_zero_or_pos i with hi0 | hipos
  · subst hi0
    have hc0 : ((first :: rest).get ⟨0, hi⟩).1 = 0 := hfirst
    rw [hc0]
    simp only [getContinuousColorRGB, if_pos (Or.inl (le_refl (0 : ℚ)))]
    rfl
  · have hlen : (first :: rest).length = rest.length + 1 := rfl
    have h0t : (0 : ℚ) < ((first :: rest).get ⟨i, hi⟩).1 := by
      have := hmono 0 i (by omega) hi hipos
      rw [show ((first :: rest).get ⟨0, by omega⟩).1 = 0 from hfirst] at this
      exact this
    have hci_le : ((first :: rest).get ⟨i, hi⟩).1 ≤ 1 := by
      by_cases hilast : i = (first :: rest).length - 1
      · calc ((first :: rest).get ⟨i, hi⟩).1
            = ((first :: rest).get
                ⟨(first :: rest).length - 1, hlastidx⟩).1 := by
              subst hilast; rfl
          _ ≤ 1 := hlast_le
      · have hlt : i < (first :: rest).length - 1 := by omega
        have h := hmono i ((first :: rest).length - 1) hi hlastidx hlt
        linarith
    by_cases hci1 : ((first :: rest).get ⟨i, hi⟩).1 < 1
    · exact interp_exact_interior first rest hsort i hi hipos h0t hci1
    · have hci_eq : ((first :: rest).get ⟨i, hi⟩).1 = 1 :=
        le_antisymm hci_le (not_lt.mp hci1)
      have hilast : i = (first :: rest).length - 1 := by
        by_contra hne
        have hlt : i < (first :: rest).length - 1 := by omega
        have h := hmono i ((first :: rest).length - 1) hi hlastidx hlt
        rw [hci_eq] at h
        linarith
      rw [hci_eq]
      cases rest with
      | nil => simp at hi; omega
      | cons a l =>
          have hcond1 : ¬ ((1 : ℚ) ≤ 0 ∨ (a :: l) = ([] : List (ℚ × Color))) := by
            push_neg
            exact ⟨by norm_num, by simp⟩
          simp only [getContinuousColorRGB, if_neg hcond1,
            if_pos (le_refl (1 : ℚ))]
          rw [hgetlast]
          subst hilast
          rfl

theorem getContinuousColor_exact_at_cutoffs_witness :
    getContinuousColorRGB [((0 : ℚ), ((1 : ℤ), 2, 3)), (1 / 2, (9, 9, 9))]
        (1 / 2) =
      .ok ((9 : ℤ), 9, 9) := by
  have h := getContinuousColor_exact_at_cutoffs ((0 : ℚ), ((1 : ℤ), 2, 3))
    [(1 / 2, (9, 9, 9))]
    (by norm_num [List.pairwise_cons]) (by norm_num)
    (show (1 / 2 : ℚ) ≤ 1 by norm_num) 1 (by norm_num)
  simpa using h

/-- C4, counterexample to the original claim: on the sorted two-stop scale
with cutoffs 1/2 and 1, querying at the first stop's own cutoff does not
return its color — the loop breaks immediately with the `low` locals
unassigned and the code raises `UnboundLocalError`. -/
theorem getContinuousColor_exact_at_cutoffs_cex :
    getContinuousColorRGB [((1 / 2 : ℚ), ((0 : ℤ), 0, 0)), (1, (255, 255, 255))]
        (1 / 2) =
      .error (.unboundLocal "low_color") ∧
    getContinuousColorRGB [((1 / 2 : ℚ), ((0 : ℤ), 0, 0)), (1, (255, 255, 255))]
        (1 / 2) ≠
      .ok ((0 : ℤ), 0, 0) := by
  have h2 : getContinuousColorRGB
      [((1 / 2 : ℚ), ((0 : ℤ), 0, 0)), (1, (255, 255, 255))] (1 / 2) =
      .error (.unboundLocal "low_color") := by
    norm_num [getContinuousColorRGB, scanStops]
  exact ⟨h2, by rw [h2]; simp⟩

/-! ### Claim C9: the black-to-white scale -/

theorem bwScale_closed (t : ℚ) :
    getContinuousColorRGB bwScale t =
      .ok (bwChannel t, bwChannel t, bwChannel t) := by
  by_cases h0 : t ≤ 0
  · simp [bwScale, bwChannel, getContinuousColorRGB, h0]
  · by_cases h1 : 1 ≤ t
    · have : ¬ t ≤ 0 := h0
      simp [bwScale, bwChannel, getContinuousColorRGB, h0, h1]
    · have h0' : (0 : ℚ) < t := not_le.mp h0
      have h1' : t < 1 := not_le.mp h1
      have harg : ((0 : ℤ) : ℚ) + (t - 0) / (1 - 0) * (((255 : ℤ) : ℚ) - ((0 : ℤ) : ℚ)) =
          255 * t := by
        push_cast
        ring
      have hnn : ¬ (255 * t < 0) := by
        push_neg
        positivity
      simp only [bwScale, getContinuousColorRGB, if_neg (by push_neg; exact ⟨h0', by simp⟩ :
        ¬ (t ≤ 0 ∨ ([((1 : ℚ), ((255 : ℤ), 255, 255))] : List (ℚ × Color)) = [])),
        if_neg h1]
      simp only [scanStops, if_pos h0', if_neg (not_lt.mpr (le_of_lt h1'))]
      simp only [lerpStops, find_intermediate_color, colorToRat, bwChannel,
        if_neg h0, if_neg h1]
      norm_num [harg, pyInt]
      rw [mul_comm t 255, if_neg hnn]

theorem bwChannel_bounds (t : ℚ) : 0 ≤ bwChannel t ∧ bwChannel t ≤ 255 := by
  unfold bwChannel
  split_ifs with h0 h1
  · norm_num
  · norm_num
  · constructor
    · exact Int.floor_nonneg.mpr
        (mul_nonneg (by norm_num) (le_of_lt (not_le.mp h0)))
    · have : (255 : ℚ) * t ≤ ((255 : ℤ) : ℚ) := by
        have ht1 : t < 1 := not_le.mp h1
        push_cast
        linarith
      calc ⌊255 * t⌋ ≤ ⌊((255 : ℤ) : ℚ)⌋ := Int.floor_mono this
        _ = 255 := Int.floor_intCast 255

theorem bwChannel_mono {t1 t2 : ℚ} (h : t1 ≤ t2) : bwChannel t1 ≤ bwChannel t2 := by
  rcases bwChannel_bounds t2 with ⟨hlb2, _⟩
  by_cases ha : t1 ≤ 0
  · have e1 : bwChannel t1 = 0 := by unfold bwChannel; rw [if_pos ha]
    rw [e1]
    exact hlb2
  · by_cases hb : 1 ≤ t1
    · have h2 : (1 : ℚ) ≤ t2 := hb.trans h
      have e1 : bwChannel t1 = 255 := by
        unfold bwChannel; rw [if_neg ha, if_pos hb]
      have e2 : bwChannel t2 = 255 := by
        unfold bwChannel
        rw [if_neg (by linarith : ¬ t2 ≤ 0), if_pos h2]
      rw [e1, e2]
    · have ht1 : t1 < 1 := not_le.mp hb
      have e1 : bwChannel t1 = ⌊255 * t1⌋ := by
        unfold bwChannel; rw [if_neg ha, if_neg hb]
      rw [e1]
      by_cases hc : 1 ≤ t2
      · have e2 : bwChannel t2 = 255 := by
          unfold bwChannel
          rw [if_neg (by linarith : ¬ t2 ≤ 0), if_pos hc]
        rw [e2]
        calc ⌊255 * t1⌋ ≤ ⌊((255 : ℤ) : ℚ)⌋ :=
              Int.floor_mono (by push_cast; linarith)
          _ = 255 := Int.floor_intCast 255
      · have e2 : bwChannel t2 = ⌊255 * t2⌋ := by
          unfold bwChannel
          rw [if_neg (fun hcon => ha (h.trans hcon)), if_neg hc]
        rw [e2]
        exact Int.floor_mono (by linarith)

/-- C9 (confirmed).  On the two-stop black-to-white scale the query `t = 1/2`
yields the mid-gray `(127, 127, 127)`, and the result is monotone: for
`t1 <= t2`, no channel at `t2` is smaller than the same channel at `t1`. -/
theorem getContinuousColor_monotone_blackwhite :
    getContinuousColorRGB bwScale (1 / 2) = .ok (127, 127, 127) ∧
    ∀ t1 t2 : ℚ, t1 ≤ t2 → ∀ c1 c2 : Color,
      getContinuousColorRGB bwScale t1 = .ok c1 →
      getContinuousColorRGB bwScale t2 = .ok c2 →
      c1.1 ≤ c2.1 ∧ c1.2.1 ≤ c2.2.1 ∧ c1.2.2 ≤ c2.2.2 := by
  constructor
  · rw [bwScale_closed]
    have : bwChannel (1 / 2) = 127 := by
      unfold bwChannel
      rw [if_neg (by norm_num), if_neg (by norm_num)]
      rw [show (255 : ℚ) * (1 / 2) = 255 / 2 by norm_num]
      rw [Int.floor_eq_iff]
      norm_num
    rw [this]
  · intro t1 t2 h c1 c2 h1 h2
    rw [bwScale_closed] at h1 h2
    have e1 : c1 = (bwChannel t1, bwChannel t1, bwChannel t1) :=
      (Except.ok.inj h1).symm
    have e2 : c2 = (bwChannel t2, bwChannel t2, bwChannel t2) :=
      (Except.ok.inj h2).symm
    subst e1
    subst e2
    exact ⟨bwChannel_mono h, bwChannel_mono h, bwChannel_mono h⟩

theorem getContinuousColor_monotone_blackwhite_witness :
    getContinuousColorRGB bwScale (1 / 4) = .ok (63, 63, 63) ∧
    ((63 : ℤ), (63 : ℤ), (63 : ℤ)).1 ≤ ((127 : ℤ), (127 : ℤ), (127 : ℤ)).1 := by
  have h14 : getContinuousColorRGB bwScale (1 / 4) = .ok (63, 63, 63) := by
    rw [bwScale_closed]
    have : bwChannel (1 / 4) = 63 := by
      unfold bwChannel
      rw [if_neg (by norm_num), if_neg (by norm_num)]
      rw [show (255 : ℚ) * (1 / 4) = 255 / 4 by norm_num]
      rw [Int.floor_eq_iff]
      norm_num
    rw [this]
  refine ⟨h14, ?_⟩
  exact (getContinuousColor_monotone_blackwhite.2 (1 / 4) (1 / 2) (by norm_num)
    (63, 63, 63) (127, 127, 127) h14 getContinuousColor_monotone_blackwhite.1).1

/-! ### Helper lemmas about hex formatting -/

theorem hexDigitChar_hex : ∀ n, n < 16 → isLowerHexDigit (hexDigitChar n) = true := by
  decide

theorem natToHexAux_length_ge (fuel : Nat) :
    ∀ (n : Nat) (acc : List Char),
      acc.length ≤ (natToHexAux fuel n acc).length := by
  induction fuel with
  | zero => intro n acc; simp [natToHexAux]
  | succ f ih =>
      intro n acc
      by_cases h : n < 16
      · simp [natToHexAux, h]
      · simp only [natToHexAux, if_neg h]
        calc acc.length ≤ (hexDigitChar (n % 16) :: acc).length := by simp
          _ ≤ _ := ih (n / 16) _

theorem natToHexAux_length_ge_one (fuel n : Nat) (acc : List Char)
    (hf : 1 ≤ fuel) :
    acc.length + 1 ≤ (natToHexAux fuel n acc).length := by
  cases fuel with
  | zero => omega
  | succ f =>
      by_cases h : n < 16
      · simp [natToHexAux, h]
      · simp only [natToHexAux, if_neg h]
        calc acc.length + 1 = (hexDigitChar (n % 16) :: acc).length := by simp
          _ ≤ _ := natToHexAux_length_ge f (n / 16) _

theorem natToHexAux_hex (fuel : Nat) :
    ∀ (n : Nat) (acc : List Char),
      (∀ c ∈ acc, isLowerHexDigit c = true) →
      ∀ c ∈ natToHexAux fuel n acc, isLowerHexDigit c = true := by
  induction fuel with
  | zero => intro n acc hacc; simpa [natToHexAux] using hacc
  | succ f ih =>
      intro n acc hacc
      by_cases h : n < 16
      · simp only [natToHexAux, if_pos h]
        intro c hc
        rcases List.mem_cons.mp hc with rfl | hc
        · exact hexDigitChar_hex n h
        · exact hacc c hc
      · simp only [natToHexAux, if_neg h]
        apply ih
        intro c hc
        rcases List.mem_cons.mp hc with rfl | hc
        · exact hexDigitChar_hex (n % 16) (Nat.mod_lt n (by norm_num))
        · exact hacc c hc

theorem natToHex_small (n : Nat) (h : n < 16) : natToHex n = [hexDigitChar n] := by
  simp [natToHex, natToHexAux, h]

theorem natToHex_two (n : Nat) (h16 : 16 ≤ n) (h256 : n < 256) :
    natToHex n = [hexDigitChar (n / 16), hexDigitChar (n % 16)] := by
  obtain ⟨m, rfl⟩ : ∃ m, n = m + 1 := ⟨n - 1, by omega⟩
  have hdiv : (m + 1) / 16 < 16 := by omega
  simp [natToHex, natToHexAux, Nat.not_lt.mpr h16, hdiv]

theorem natToHex_length_le_two (n : Nat) (h : n < 256) :
    (natToHex n).length ≤ 2 := by
  by_cases h16 : n < 16
  · rw [natToHex_small n h16]; norm_num
  · rw [natToHex_two n (Nat.not_lt.mp h16) h]; norm_num

theorem natToHex_length_pos (n : Nat) : 1 ≤ (natToHex n).length := by
  have := natToHexAux_length_ge_one (n + 1) n [] (by omega)
  simpa [natToHex] using this

theorem natToHex_big (n : Nat) (h : 256 ≤ n) : 3 ≤ (natToHex n).length := by
  obtain ⟨m, rfl⟩ : ∃ m, n = m + 1 := ⟨n - 1, by omega⟩
  have h16 : ¬ (m + 1 < 16) := by omega
  have h16' : ¬ ((m + 1) / 16 < 16) := by omega
  have expand : natToHex (m + 1) =
      natToHexAux m (((m + 1) / 16) / 16)
        [hexDigitChar ((m + 1) / 16 % 16), hexDigitChar ((m + 1) % 16)] := by
    simp [natToHex, natToHexAux, h16, h16']
  rw [expand]
  have := natToHexAux_length_ge_one m (((m + 1) / 16) / 16)
    [hexDigitChar ((m + 1) / 16 % 16), hexDigitChar ((m + 1) % 16)] (by omega)
  simpa using this

theorem natToHex_hex (n : Nat) : ∀ c ∈ natToHex n, isLowerHexDigit c = true :=
  natToHexAux_hex (n + 1) n [] (by simp)

theorem padLeft2_length (l : List Char) : (padLeft2 l).length = max 2 l.length := by
  simp [padLeft2]
  omega

theorem padLeft2_hex (l : List Char)
    (h : ∀ c ∈ l, isLowerHexDigit c = true) :
    ∀ c ∈ padLeft2 l, isLowerHexDigit c = true := by
  intro c hc
  rcases List.mem_append.mp hc with hc | hc
  · rw [List.eq_of_mem_replicate hc]
    decide
  · exact h c hc

theorem pyFormat02x_inrange (n : ℤ) (h0 : 0 ≤ n) (h255 : n ≤ 255) :
    (pyFormat02x n).length = 2 ∧
      ∀ c ∈ pyFormat02x n, isLowerHexDigit c = true := by
  have hneg : ¬ n < 0 := not_lt.mpr h0
  have hlt : n.toNat < 256 := by omega
  constructor
  · rw [pyFormat02x, if_neg hneg, padLeft2_length]
    have h2 := natToHex_length_le_two n.toNat hlt
    have h1 := natToHex_length_pos n.toNat
    omega
  · rw [pyFormat02x, if_neg hneg]
    exact padLeft2_hex _ (natToHex_hex n.toNat)

theorem pyFormat02x_length_ge_two (n : ℤ) : 2 ≤ (pyFormat02x n).length := by
  by_cases hneg : n < 0
  · rw [pyFormat02x, if_pos hneg]
    have := natToHex_length_pos n.natAbs
    simpa using this
  · rw [pyFormat02x, if_neg hneg, padLeft2_length]
    omega

theorem pyFormat02x_big (n : ℤ) (h : 255 < n) : 3 ≤ (pyFormat02x n).length := by
  have hneg : ¬ n < 0 := by omega
  rw [pyFormat02x, if_neg hneg, padLeft2_length]
  have := natToHex_big n.toNat (by omega)
  omega

theorem pyFormat02x_neg_head (n : ℤ) (h : n < 0) :
    (pyFormat02x n).head? = some '-' ∧ '-' ∈ pyFormat02x n := by
  rw [pyFormat02x, if_pos h]
  exact ⟨rfl, List.mem_cons_self _ _⟩

theorem isHexColorStr_ok (r g b : ℤ)
    (hr0 : 0 ≤ r) (hr : r ≤ 255) (hg0 : 0 ≤ g) (hg : g ≤ 255)
    (hb0 : 0 ≤ b) (hb : b ≤ 255) :
    isHexColorStr (rgbToHexCore (r, g, b)) = true := by
  obtain ⟨hrl, hrh⟩ := pyFormat02x_inrange r hr0 hr
  obtain ⟨hgl, hgh⟩ := pyFormat02x_inrange g hg0 hg
  obtain ⟨hbl, hbh⟩ := pyFormat02x_inrange b hb0 hb
  show ((pyFormat02x r ++ pyFormat02x g ++ pyFormat02x b).length == 6 &&
      (pyFormat02x r ++ pyFormat02x g ++ pyFormat02x b).all isLowerHexDigit) =
    true
  rw [Bool.and_eq_true]
  constructor
  · simp [List.length_append, hrl, hgl, hbl]
  · rw [List.all_eq_true]
    intro c hc
    rcases List.mem_append.mp hc with hc1 | hcb
    · rcases List.mem_append.mp hc1 with hcr | hcg
      · exact hrh c hcr
      · exact hgh c hcg
    · exact hbh c hcb

theorem isHexColorStr_iff (r g b : ℤ) :
    isHexColorStr (rgbToHexCore (r, g, b)) = true ↔
      (0 ≤ r ∧ r ≤ 255 ∧ 0 ≤ g ∧ g ≤ 255 ∧ 0 ≤ b ∧ b ≤ 255) := by
  constructor
  · intro h
    have h' : ((pyFormat02x r ++ pyFormat02x g ++ pyFormat02x b).length == 6 &&
        (pyFormat02x r ++ pyFormat02x g ++ pyFormat02x b).all isLowerHexDigit) =
        true := h
    rw [Bool.and_eq_true, beq_iff_eq, List.all_eq_true] at h'
    obtain ⟨hlen, hall⟩ := h'
    have hsum : (pyFormat02x r).length + (pyFormat02x g).length +
        (pyFormat02x b).length = 6 := by
      have := hlen
      simp [List.length_append] at this
      omega
    have hr0 : 0 ≤ r := by
      by_contra hrc
      push_neg at hrc
      have hmem : '-' ∈ pyFormat02x r ++ pyFormat02x g ++ pyFormat02x b :=
        List.mem_append.mpr
          (Or.inl (List.mem_append.mpr (Or.inl (pyFormat02x_neg_head r hrc).2)))
      exact absurd (hall _ hmem) (by decide)
    have hg0 : 0 ≤ g := by
      by_contra hgc
      push_neg at hgc
      have hmem : '-' ∈ pyFormat02x r ++ pyFormat02x g ++ pyFormat02x b :=
        List.mem_append.mpr
          (Or.inl (List.mem_append.mpr (Or.inr (pyFormat02x_neg_head g hgc).2)))
      exact absurd (hall _ hmem) (by decide)
    have hb0 : 0 ≤ b := by
      by_contra hbc
      push_neg at hbc
      have hmem : '-' ∈ pyFormat02x r ++ pyFormat02x g ++ pyFormat02x b :=
        List.mem_append.mpr (Or.inr (pyFormat02x_neg_head b hbc).2)
      exact absurd (hall _ hmem) (by decide)
    have hge_r := pyFormat02x_length_ge_two r
    have hge_g := pyFormat02x_length_ge_two g
    have hge_b := pyFormat02x_length_ge_two b
    have hr255 : r ≤ 255 := by
      by_contra hrc
      push_neg at hrc
      have := pyFormat02x_big r hrc
      omega
    have hg255 : g ≤ 255 := by
      by_contra hgc
      push_neg at hgc
      have := pyFormat02x_big g hgc
      omega
    have hb255 : b ≤ 255 := by
      by_contra hbc
      push_neg at hbc
      have := pyFormat02x_big b hbc
      omega
    exact ⟨hr0, hr255, hg0, hg255, hb0, hb255⟩
  · rintro ⟨hr0, hr, hg0, hg, hb0, hb⟩
    exact isHexColorStr_ok r g b hr0 hr hg0 hg hb0 hb

/-! ### Claims C7, C8, C10 -/

/-- C7 (confirmed).  `rgbToHex` on an in-range triple — or on a
`rgb(r, g, b)` string `eval` turns into such a triple — produces a lowercase
6-hex-digit string prefixed with `#`, each channel zero-padded to two
digits; in particular the three example colors map to `#ffffff`, `#000000`
and `#86eb87` from both input forms. -/
theorem rgbToHex_formats :
    rgbToHex (.inr (255, 255, 255)) = .ok "#ffffff" ∧
    rgbToHex (.inl "rgb(255, 255, 255)") = .ok "#ffffff" ∧
    rgbToHex (.inr (0, 0, 0)) = .ok "#000000" ∧
    rgbToHex (.inl "rgb(0, 0, 0)") = .ok "#000000" ∧
    rgbToHex (.inr (134, 235, 135)) = .ok "#86eb87" ∧
    rgbToHex (.inl "rgb(134, 235, 135)") = .ok "#86eb87" ∧
    (∀ r g b : ℤ, 0 ≤ r → r ≤ 255 → 0 ≤ g → g ≤ 255 → 0 ≤ b → b ≤ 255 →
      isHexColorStr (rgbToHexCore (r, g, b)) = true) ∧
    (∀ (s : String) (r g b : ℤ) (ns : List ℤ),
      pyEvalIntTuple (stripRgb s.data) = some (r :: g :: b :: ns) →
      rgbToHex (.inl s) = .ok (rgbToHexCore (r, g, b))) := by
  refine ⟨by decide, by decide, by decide, by decide, by decide, by decide,
    ?_, ?_⟩
  · intro r g b h1 h2 h3 h4 h5 h6
    exact isHexColorStr_ok r g b h1 h2 h3 h4 h5 h6
  · intro s r g b ns h
    simp [rgbToHex, h]

theorem rgbToHex_formats_witness :
    isHexColorStr (rgbToHexCore (10, 20, 30)) = true ∧
    rgbToHex (.inl "rgb(9, 8, 7)") = .ok (rgbToHexCore (9, 8, 7)) := by
  constructor
  · exact rgbToHex_formats.2.2.2.2.2.2.1 10 20 30 (by decide) (by decide)
      (by decide) (by decide) (by decide) (by decide)
  · exact rgbToHex_formats.2.2.2.2.2.2.2 "rgb(9, 8, 7)" 9 8 7 [] (by decide)

/-- C8 (confirmed).  A color string from which `eval` cannot extract a tuple
(non-numeric components, unparsable syntax) makes `rgbToHex` fail, as does a
tuple of fewer than three integers (`IndexError` at the subscript); the
error — the spec's `InvalidInput` — propagates to the caller instead of a
color being defaulted. -/
theorem rgbToHex_bad_string_errors :
    (∀ s : String, pyEvalIntTuple (stripRgb s.data) = none →
      rgbToHex (.inl s) = .error .evalError) ∧
    (∀ (s : String) (ns : List ℤ),
      pyEvalIntTuple (stripRgb s.data) = some ns → ns.length < 3 →
      rgbToHex (.inl s) = .error .indexError) ∧
    rgbToHex (.inl "rgb(1, 2)") = .error .indexError ∧
    rgbToHex (.inl "rgb(a, b, c)") = .error .evalError ∧
    rgbToHex (.inl "") = .error .evalError := by
  refine ⟨?_, ?_, by decide, by decide, by decide⟩
  · intro s h
    simp [rgbToHex, h]
  · intro s ns h hlen
    match ns, hlen with
    | [], _ => simp [rgbToHex, h]
    | [a], _ => simp [rgbToHex, h]
    | [a, b], _ => simp [rgbToHex, h]
    | a :: b :: c :: tl, hlen => exact absurd hlen (by simp)

theorem rgbToHex_bad_string_errors_witness :
    rgbToHex (.inl "zzz") = .error .evalError ∧
    rgbToHex (.inl "rgb(4, 5)") = .error .indexError := by
  constructor
  · exact rgbToHex_bad_string_errors.1 "zzz" (by decide)
  · exact rgbToHex_bad_string_errors.2.1 "rgb(4, 5)" [4, 5] (by decide)
      (by decide)

/-- C10 (confirmed).  On an arbitrary integer triple `rgbToHex` never fails
(the formatting branch is total), but it neither truncates nor clamps: the
result has the 7-character `#rrggbb` shape — six lowercase hex digits after
`#` — exactly when every component lies in [0, 255]; a component above 255
contributes more than two hex digits ((256,0,0) renders as `#1000000`), and
a negative component is rendered with a `-` sign. -/
theorem rgbToHex_triple_no_clamp :
    (∀ r g b : ℤ,
      isHexColorStr (rgbToHexCore (r, g, b)) = true ↔
        (0 ≤ r ∧ r ≤ 255 ∧ 0 ≤ g ∧ g ≤ 255 ∧ 0 ≤ b ∧ b ≤ 255)) ∧
    rgbToHexCore (256, 0, 0) = "#1000000" ∧
    (∀ n : ℤ, n < 0 → (pyFormat02x n).head? = some '-') ∧
    (∀ n : ℤ, 255 < n → 2 < (pyFormat02x n).length) := by
  refine ⟨isHexColorStr_iff, by decide, ?_, ?_⟩
  · intro n h
    exact (pyFormat02x_neg_head n h).1
  · intro n h
    have := pyFormat02x_big n h
    omega

theorem rgbToHex_triple_no_clamp_witness :
    (pyFormat02x (-7)).head? = some '-' ∧ 2 < (pyFormat02x 300).length :=
  ⟨rgbToHex_triple_no_clamp.2.2.1 (-7) (by decide),
    rgbToHex_triple_no_clamp.2.2.2 300 (by decide)⟩
